import Mathlib

/-!
Shallow embedding of `src/libsyntax/ext/pipes/proto.rs`: the session-type
protocol intermediate representation (directions, messages, states,
protocols), its builder and query operations, and the bottom-up traversal
engine `visit`.

Modelling conventions:
- `@str` becomes `String`; `codemap::span`, `ast::Ty` and `ast::ident` are
  opaque tokens modelled as `Nat` (`Span`, `Ty`, `Ident`); `ast::Generics`
  keeps only the shape the code inspects (`ty_params` as a list of opaque
  tokens, plus `lifetimes` for completeness).
- The managed-pointer graph (`@state_` back-pointers, `@mut protocol_`) is
  flattened: a `state_` stores its own data and its owning `protocol_` is
  passed explicitly where the Rust code reads `self.proto`; a `message`
  stores name, span, payload types and optional transition — its fourth
  field in the source, the owning-state back-pointer, always aliases the
  enclosing state, so operations that read it (`visit`) receive the
  enclosing state instead.
- Mutating builder calls (`add_state_poly`, `add_message`) become pure
  functions returning the updated value.
- Fallible paths are made explicit by the `Outcome` type: `Outcome.crash`
  models a `fail!` runtime abort (what `Option::get` does on `None` in this
  Rust version); `Outcome.err` models a typed error returned to the caller
  as data. The code under verification only ever produces `ok` or `crash`;
  `err` exists so that statements distinguishing "reports an error as data"
  from "aborts" can be expressed and settled.
-/

namespace Pipes

abbrev Span := Nat
abbrev Ty := Nat
abbrev Ident := Nat

/-- Opaque shape of `ast::Generics`: the code only ever asks for the length
of `ty_params`. -/
structure Generics where
  lifetimes : List Nat
  ty_params : List Nat
deriving DecidableEq

/-- Source `enum direction { send, recv }`. -/
inductive direction where
  | send
  | recv
deriving DecidableEq

/-- Source `direction::reverse`: send ↦ recv, recv ↦ send. -/
def direction.reverse : direction → direction
  | .send => .recv
  | .recv => .send

/-- Source `ToStr for direction`. -/
def direction.to_str : direction → String
  | .send => "Send"
  | .recv => "Recv"

/-- Source `struct next_state { state: @str, tys: ~[@ast::Ty] }`: a
transition, naming its target state and carrying type arguments. -/
structure next_state where
  state : String
  tys : List Ty
deriving DecidableEq

/-- Source `struct message(@str, span, ~[@ast::Ty], state, Option<next_state>)`.
The fourth component (the owning-state back-pointer installed by
`add_message`) is represented by context: every message lives inside its
owning state's `messages` list, and `visit` passes that enclosing state
where the source destructures the back-pointer. -/
structure message where
  name : String
  span : Span
  tys : List Ty
  next : Option next_state
deriving DecidableEq

/-- Source `struct state_`: id, name, ident, span, direction, generics and
the owned message list. The `proto` back-pointer is passed explicitly to
the operations that read it. -/
structure state_ where
  id : Nat
  name : String
  ident : Ident
  span : Span
  dir : direction
  generics : Generics
  messages : List message
deriving DecidableEq

/-- Source `struct protocol_`: name, span, owned state list and the
optional bounded flag. -/
structure protocol_ where
  name : String
  span : Span
  states : List state_
  bounded : Option Bool
deriving DecidableEq

/-- Source `pub fn protocol_(name, span)` (and the `@mut` wrapper
`protocol`): a fresh protocol with no states and `bounded = None`. -/
def protocol (name : String) (span : Span) : protocol_ :=
  { name := name, span := span, states := [], bounded := none }

/-- The error kinds named by the specification. -/
inductive PipesError where
  | UnknownState
  | MissingBoundedFlag
deriving DecidableEq

/-- Observable outcome of a fallible operation. `crash` models a `fail!`
abort (in particular `Option::get` on `None`); `err` models a typed error
value handed back to the caller as data. The embedded code never produces
`err`. -/
inductive Outcome (α : Type u) where
  | ok : α → Outcome α
  | err : PipesError → Outcome α
  | crash : Outcome α
deriving DecidableEq

/-- Source `state_::add_message`: appends a fully formed message to the
state's message list (the source pushes onto the shared `@mut` vector). -/
def state_.add_message (st : state_) (name : String) (sp : Span)
    (data : List Ty) (next : Option next_state) : state_ :=
  { st with messages :=
      st.messages ++ [{ name := name, span := sp, tys := data, next := next }] }

/-- Source `protocol_::get_state`: a linear scan of the current state list
for the first state with the given name (`self.states.iter().find_(..)`),
then `Option::get`, which on `None` runs `fail!` — modelled as `crash`. -/
def protocol_.get_state (p : protocol_) (name : String) : Outcome state_ :=
  match p.states.find? (fun i => name == i.name) with
  | some s => Outcome.ok s
  | none => Outcome.crash

/-- Source `protocol_::get_state_by_id`: direct indexing into the state
list (out-of-range indexing aborts, modelled by `crash`). -/
def protocol_.get_state_by_id (p : protocol_) (id : Nat) : Outcome state_ :=
  match p.states.get? id with
  | some s => Outcome.ok s
  | none => Outcome.crash

/-- Source `protocol_::has_state`: the same linear scan as `get_state`,
probed with `is_some`. -/
def protocol_.has_state (p : protocol_) (name : String) : Bool :=
  (p.states.find? (fun i => name == i.name)).isSome

/-- Source `protocol_::filename`. -/
def protocol_.filename (p : protocol_) : String :=
  "proto://" ++ p.name

/-- Source `protocol_::num_states`. -/
def protocol_.num_states (p : protocol_) : Nat :=
  p.states.length

/-- Source `protocol_::has_ty_params`: scans the states, returning true as
soon as one has a non-empty `ty_params` list. -/
def protocol_.has_ty_params (p : protocol_) : Bool :=
  p.states.any (fun s => s.generics.ty_params.length > 0)

/-- Source `protocol_::is_bounded`: `self.bounded.get()` — yields the flag
when set, and on `None` runs `fail!`, modelled as `crash`. -/
def protocol_.is_bounded (p : protocol_) : Outcome Bool :=
  match p.bounded with
  | some b => Outcome.ok b
  | none => Outcome.crash

/-- Source `protocol_::add_state_poly`: builds a state whose id is the
current state count, whose span is the protocol's span and whose message
list is empty, pushes it and returns it (here: the updated protocol
together with the new state). -/
def protocol_.add_state_poly (p : protocol_) (name : String) (ident : Ident)
    (dir : direction) (generics : Generics) : protocol_ × state_ :=
  let st : state_ :=
    { id := p.states.length, name := name, ident := ident, span := p.span,
      dir := dir, generics := generics, messages := [] }
  ({ p with states := p.states ++ [st] }, st)

/-- Source `state_::filename`: delegates to the owning protocol (passed
explicitly here where the source reads `self.proto`). -/
def state_.filename (_st : state_) (p : protocol_) : String :=
  p.filename

/-- Loop body of `state_::reachable`: walk the message list in order; for a
message carrying a transition, resolve the target by name through the
owning protocol (`self.proto.get_state`, which crashes on an unknown name)
and invoke the callback; stop with `false` as soon as the callback returns
false. The Rust callback is a closure over a mutable environment, modelled
by threading an explicit accumulator of type `σ`. -/
def reachableLoop {σ : Type u} (p : protocol_) (f : σ → state_ → σ × Bool) :
    σ → List message → Outcome (σ × Bool)
  | acc, [] => Outcome.ok (acc, true)
  | acc, m :: ms =>
    match m.next with
    | some ns =>
      match p.get_state ns.state with
      | Outcome.ok target =>
        match f acc target with
        | (acc2, true) => reachableLoop p f acc2 ms
        | (acc2, false) => Outcome.ok (acc2, false)
      | Outcome.err e => Outcome.err e
      | Outcome.crash => Outcome.crash
    | none => reachableLoop p f acc ms

/-- Source `state_::reachable`: iterate over the states reachable in one
message from this state (`p` is the owning protocol the source reads as
`self.proto`). -/
def state_.reachable {σ : Type u} (st : state_) (p : protocol_)
    (f : σ → state_ → σ × Bool) (init : σ) : Outcome (σ × Bool) :=
  reachableLoop p f init st.messages

/-- Source `pub fn visit`: the bottom-up traversal engine. For each state
in registration order, map `visit_message` over its messages in
declaration order (the source destructures each message and passes the
owning-state back-pointer, which aliases the enclosing state `s`), pass
the state and its message results to `visit_state`, and finally pass the
protocol with all per-state results to `visit_proto`. No transition edge
is followed. -/
def visit {Tproto Tstate Tmessage : Type u}
    (visit_message : String → Span → List Ty → state_ → Option next_state → Tmessage)
    (visit_state : state_ → List Tmessage → Tstate)
    (visit_proto : protocol_ → List Tstate → Tproto)
    (proto : protocol_) : Tproto :=
  let states : List Tstate := proto.states.map (fun s =>
    let messages : List Tmessage := s.messages.map (fun m =>
      visit_message m.name m.span m.tys s m.next)
    visit_state s messages)
  visit_proto proto states

/-! Concrete fixtures used by witnesses and counterexamples. -/

/-- State `B` with no messages. -/
def stB : state_ :=
  { id := 1, name := "B", ident := 1, span := 0, dir := direction.recv,
    generics := ⟨[], []⟩, messages := [] }

/-- State `A` with two messages, both transitioning to `B`. -/
def stA : state_ :=
  { id := 0, name := "A", ident := 0, span := 0, dir := direction.send,
    generics := ⟨[], []⟩,
    messages := [⟨"m1", 0, [], some ⟨"B", []⟩⟩, ⟨"m2", 0, [], some ⟨"B", []⟩⟩] }

/-- Protocol holding `A` and `B`. -/
def pAB : protocol_ :=
  { name := "P", span := 0, states := [stA, stB], bounded := none }

/-- State `Ping`, message `ping` transitioning to `Pong`. -/
def stPing : state_ :=
  { id := 0, name := "Ping", ident := 0, span := 0, dir := direction.send,
    generics := ⟨[], []⟩, messages := [⟨"ping", 0, [], some ⟨"Pong", []⟩⟩] }

/-- State `Pong`, message `pong` transitioning back to `Ping`. -/
def stPong : state_ :=
  { id := 1, name := "Pong", ident := 1, span := 0, dir := direction.recv,
    generics := ⟨[], []⟩, messages := [⟨"pong", 0, [], some ⟨"Ping", []⟩⟩] }

/-- The mutually recursive `pingpong` protocol, bounded flag unset. -/
def pingpong : protocol_ :=
  { name := "pingpong", span := 0, states := [stPing, stPong], bounded := none }

/-- Claim C7: `reverse` is a total involution on the two-valued `direction`
type, mapping send to recv and recv to send. -/
theorem C7_reverse_involution :
    (∀ d : direction, d.reverse.reverse = d)
    ∧ direction.send.reverse = direction.recv
    ∧ direction.recv.reverse = direction.send := by
  refine ⟨fun d => ?_, rfl, rfl⟩
  cases d <;> rfl

/-- Claim C8: `has_ty_params` is true iff at least one registered state has
a non-empty `ty_params` list. -/
theorem C8_has_ty_params_iff (p : protocol_) :
    p.has_ty_params = true ↔ ∃ s ∈ p.states, s.generics.ty_params ≠ [] := by
  simp [protocol_.has_ty_params, List.any_eq_true, List.length_pos]

/-- Claim C10: every state created by `add_state_poly` carries the owning
protocol's span, not a per-state location. -/
theorem C10_state_span_is_proto_span (p : protocol_) (name : String)
    (ident : Ident) (dir : direction) (generics : Generics) :
    ((p.add_state_poly name ident dir generics).2).span = p.span := rfl

/-- Claim C1: `visit` folds only the ownership tree — each state's messages
are mapped through `visit_message` and no transition edge is ever resolved
(the right-hand side mentions a transition only as the data handed to
`visit_message`) — it is a total function, so it terminates on every
protocol, however cyclic its transition graph, and it produces exactly one
`Tstate` result per registered state. -/
theorem C1_visit_walks_ownership_tree {Tstate Tmessage : Type}
    (vm : String → Span → List Ty → state_ → Option next_state → Tmessage)
    (vs : state_ → List Tmessage → Tstate) (p : protocol_) :
    visit vm vs (fun _ sts => sts) p
      = p.states.map (fun s => vs s (s.messages.map (fun m =>
          vm m.name m.span m.tys s m.next)))
    ∧ (visit vm vs (fun _ sts => sts) p).length = p.num_states := by
  refine ⟨rfl, ?_⟩
  simp [visit, protocol_.num_states]

/-- Claim C6: `visit` calls `visit_message` once per message in declaration
order within each state, in state-registration order; each state's ordered
message-result sequence is passed with that state to `visit_state` and the
ordered per-state sequence is passed with the protocol to `visit_proto`;
appending message m1 before m2 to a state makes the emitted message-result
sequence for that state list m1's result before m2's. -/
theorem C6_visit_message_order {Tproto Tstate Tmessage : Type}
    (vm : String → Span → List Ty → state_ → Option next_state → Tmessage)
    (vs : state_ → List Tmessage → Tstate)
    (vp : protocol_ → List Tstate → Tproto)
    (p : protocol_) (st : state_)
    (n1 : String) (sp1 : Span) (d1 : List Ty) (x1 : Option next_state)
    (n2 : String) (sp2 : Span) (d2 : List Ty) (x2 : Option next_state) :
    visit vm vs vp p
      = vp p (p.states.map (fun s => vs s (s.messages.map (fun m =>
          vm m.name m.span m.tys s m.next))))
    ∧ (visit vm (fun _ ms => ms) (fun _ sts => sts)
        { p with states :=
            p.states ++ [(st.add_message n1 sp1 d1 x1).add_message n2 sp2 d2 x2] }).get?
          p.states.length
        = some (st.messages.map (fun m =>
              vm m.name m.span m.tys
                ((st.add_message n1 sp1 d1 x1).add_message n2 sp2 d2 x2) m.next)
            ++ [vm n1 sp1 d1 ((st.add_message n1 sp1 d1 x1).add_message n2 sp2 d2 x2) x1,
                vm n2 sp2 d2 ((st.add_message n1 sp1 d1 x1).add_message n2 sp2 d2 x2) x2]) := by
  refine ⟨rfl, ?_⟩
  show (List.map _ (p.states ++ [_])).get? p.states.length = _
  rw [List.get?_eq_getElem?, List.map_append, List.getElem?_append_right (by simp)]
  simp [state_.add_message]

/-- First-match characterization of `List.find?`: if position `i` holds the
first element satisfying the predicate, `find?` returns that element. -/
lemma find?_eq_of_first {α : Type} (pred : α → Bool) :
    ∀ (l : List α) (i : Nat) (s : α), l[i]? = some s → pred s = true →
      (∀ j t, j < i → l[j]? = some t → pred t = false) →
      l.find? pred = some s := by
  intro l
  induction l with
  | nil => intro i s hget _ _; simp at hget
  | cons a l2 ih =>
    intro i s hget hpred hfirst
    cases i with
    | zero =>
      simp at hget
      subst hget
      simp [List.find?, hpred]
    | succ n =>
      have ha : pred a = false := hfirst 0 a (Nat.succ_pos n) (by simp)
      simp at hget
      have := ih n s hget hpred (fun j t hj hget2 =>
        hfirst (j + 1) t (Nat.succ_lt_succ hj) (by simpa using hget2))
      simp [List.find?, ha, this]

/-- Claim C2 (amended): `get_state` is a linear lookup over the current
state list — after registering a state under a previously unknown name the
same lookup returns exactly that new state — but an unknown name makes it
crash (`fail!` from `Option::get` on `None`), not return an `UnknownState`
error value. -/
theorem C2_get_state_current_list (p : protocol_) (name : String)
    (hnone : ∀ s ∈ p.states, s.name ≠ name)
    (ident : Ident) (dir : direction) (gens : Generics) :
    p.get_state name = Outcome.crash
    ∧ p.get_state name ≠ Outcome.err PipesError.UnknownState
    ∧ (p.add_state_poly name ident dir gens).1.get_state name
        = Outcome.ok (p.add_state_poly name ident dir gens).2 := by
  have hfind : p.states.find? (fun i => name == i.name) = none := by
    rw [List.find?_eq_none]
    intro s hs h
    have heq : name = s.name := by simpa using h
    exact hnone s hs heq.symm
  refine ⟨?_, ?_, ?_⟩
  · simp [protocol_.get_state, hfind]
  · simp [protocol_.get_state, hfind]
  · simp only [protocol_.get_state, protocol_.add_state_poly, List.find?_append, hfind,
      Option.none_or]
    simp [List.find?]

/-- Witness for C2 at a concrete input: on the empty protocol the lookup
for `A` fails, and after `add_state_poly "A"` it returns the new state. -/
theorem C2_get_state_current_list_witness :
    ((protocol "P" 0).add_state_poly "A" 0 direction.send ⟨[], []⟩).1.get_state "A"
      = Outcome.ok ((protocol "P" 0).add_state_poly "A" 0 direction.send ⟨[], []⟩).2 :=
  (C2_get_state_current_list (protocol "P" 0) "A" (by simp [protocol]) 0
    direction.send ⟨[], []⟩).2.2

/-- Counterexample for C2 as stated: looking up a name in an empty protocol
crashes (models the `fail!` abort of `Option::get`); it does not signal the
`UnknownState` error as data. -/
theorem C2_counterexample :
    (protocol "P" 0).get_state "missing" = Outcome.crash
    ∧ (protocol "P" 0).get_state "missing" ≠ Outcome.err PipesError.UnknownState := by
  exact ⟨rfl, by decide⟩

/-- Claim C4 (amended): `is_bounded` returns the previously set `bounded`
flag; calling it before the flag has been set crashes (`fail!` from
`Option::get` on `None`) rather than reporting `MissingBoundedFlag` to the
caller as data. -/
theorem C4_is_bounded_flag (p : protocol_) :
    (∀ b, p.bounded = some b → p.is_bounded = Outcome.ok b)
    ∧ (p.bounded = none →
        p.is_bounded = Outcome.crash
        ∧ p.is_bounded ≠ Outcome.err PipesError.MissingBoundedFlag) := by
  refine ⟨fun b hb => ?_, fun hn => ?_⟩
  · simp [protocol_.is_bounded, hb]
  · refine ⟨by simp [protocol_.is_bounded, hn], ?_⟩
    simp [protocol_.is_bounded, hn]

/-- Witness for C4 at a concrete input: after setting `bounded := false` on
the pingpong protocol, `is_bounded` returns false. -/
theorem C4_is_bounded_flag_witness :
    ({ pingpong with bounded := some false } : protocol_).is_bounded
      = Outcome.ok false :=
  (C4_is_bounded_flag { pingpong with bounded := some false }).1 false rfl

/-- Counterexample for C4 as stated: reading `is_bounded` on the pingpong
protocol before the flag is set crashes; it does not signal
`MissingBoundedFlag` as data. -/
theorem C4_counterexample :
    pingpong.is_bounded = Outcome.crash
    ∧ pingpong.is_bounded ≠ Outcome.err PipesError.MissingBoundedFlag := by
  exact ⟨rfl, by decide⟩

/-- Claim C9: with duplicate names permitted by the builder, `get_state`
returns the earliest-registered state with the requested name, and
`has_state` agrees with `get_state`: it is true exactly when some
registered state has that name. -/
theorem C9_get_state_first_match (p : protocol_) (name : String) (i : Nat)
    (s : state_) (hget : p.states[i]? = some s) (hname : s.name = name)
    (hfirst : ∀ j t, j < i → p.states[j]? = some t → t.name ≠ name) :
    p.get_state name = Outcome.ok s
    ∧ (p.has_state name = true ↔ ∃ t ∈ p.states, t.name = name) := by
  constructor
  · have hfind := find?_eq_of_first (fun t => name == t.name) p.states i s hget
      (by rw [beq_iff_eq, hname])
      (fun j t hj hg => by
        rw [beq_eq_false_iff_ne]
        exact fun h => hfirst j t hj hg h.symm)
    simp [protocol_.get_state, hfind]
  · rw [protocol_.has_state, List.find?_isSome]
    constructor
    · rintro ⟨t, ht, hbeq⟩
      exact ⟨t, ht, (beq_iff_eq.mp hbeq).symm⟩
    · rintro ⟨t, ht, hn⟩
      exact ⟨t, ht, beq_iff_eq.mpr hn.symm⟩

/-- State named `A` registered first in the duplicate-name protocol. -/
def dupA0 : state_ :=
  { id := 0, name := "A", ident := 0, span := 0, dir := direction.send,
    generics := ⟨[], []⟩, messages := [] }

/-- Second state also named `A`. -/
def dupA1 : state_ :=
  { id := 1, name := "A", ident := 1, span := 0, dir := direction.recv,
    generics := ⟨[], []⟩, messages := [] }

/-- Protocol with two states sharing the name `A`. -/
def pDup : protocol_ :=
  { name := "D", span := 0, states := [dupA0, dupA1], bounded := none }

/-- Witness for C9 at a concrete input: with two states both named `A`,
`get_state` returns the first-registered one (id 0) and `has_state`
agrees. -/
theorem C9_get_state_first_match_witness :
    pDup.get_state "A" = Outcome.ok dupA0
    ∧ (pDup.has_state "A" = true ↔ ∃ t ∈ pDup.states, t.name = "A") :=
  C9_get_state_first_match pDup "A" 0 dupA0 rfl rfl
    (fun j _t hj _ => absurd hj (Nat.not_lt_zero j))

/-- Resolved transition targets of a message list, in declaration order:
one entry per message that carries a transition whose name resolves (the
same lookup `get_state` performs). -/
def targetsOf (p : protocol_) (ms : List message) : List state_ :=
  ms.filterMap (fun m => m.next.bind (fun ns =>
    p.states.find? (fun i => ns.state == i.name)))

/-- Resolved transition targets of a state's messages, in declaration
order. -/
def state_.targets (st : state_) (p : protocol_) : List state_ :=
  targetsOf p st.messages

/-- Pure early-exit fold over an already-resolved target list: invoke the
callback on each target in order, stopping as soon as it returns false. -/
def runFold {σ : Type u} (f : σ → state_ → σ × Bool) : σ → List state_ → σ × Bool
  | acc, [] => (acc, true)
  | acc, t :: ts =>
    match f acc t with
    | (acc2, true) => runFold f acc2 ts
    | (acc2, false) => (acc2, false)

/-- Visit trace of a pure predicate over a target list: the states the
callback is invoked on (stopping right after the first one on which it
returns false) together with the final result. -/
def traceSpec (g : state_ → Bool) : List state_ → List state_ × Bool
  | [] => ([], true)
  | t :: ts =>
    if g t then (t :: (traceSpec g ts).1, (traceSpec g ts).2)
    else ([t], false)

/-- When every transition target of the message list resolves, the
`reachable` loop never crashes and equals the pure early-exit fold over
the resolved target list. -/
lemma reachableLoop_runFold {σ : Type} (p : protocol_) (f : σ → state_ → σ × Bool) :
    ∀ (ms : List message) (acc : σ),
      (∀ m ∈ ms, m.next.all (fun ns => p.has_state ns.state) = true) →
      reachableLoop p f acc ms = Outcome.ok (runFold f acc (targetsOf p ms)) := by
  intro ms
  induction ms with
  | nil => intro acc _; rfl
  | cons m ms ih =>
    intro acc hres
    have hm := hres m (List.mem_cons_self m ms)
    have hms := fun m2 hm2 => hres m2 (List.mem_cons_of_mem m hm2)
    obtain ⟨mname, mspan, mtys, mnext⟩ := m
    cases mnext with
    | none =>
      have h1 : reachableLoop p f acc
            ({ name := mname, span := mspan, tys := mtys, next := none } :: ms)
          = reachableLoop p f acc ms := rfl
      have h2 : targetsOf p
            ({ name := mname, span := mspan, tys := mtys, next := none } :: ms)
          = targetsOf p ms := by
        simp [targetsOf]
      rw [h1, h2]
      exact ih acc hms
    | some ns =>
      have hh : (p.states.find? (fun i => ns.state == i.name)).isSome = true := by
        simpa [protocol_.has_state] using hm
      obtain ⟨target, htarget⟩ := Option.isSome_iff_exists.mp hh
      have hget : p.get_state ns.state = Outcome.ok target := by
        simp [protocol_.get_state, htarget]
      have h1 : reachableLoop p f acc
            ({ name := mname, span := mspan, tys := mtys, next := some ns } :: ms)
          = (match p.get_state ns.state with
             | Outcome.ok target =>
               match f acc target with
               | (acc2, true) => reachableLoop p f acc2 ms
               | (acc2, false) => Outcome.ok (acc2, false)
             | Outcome.err e => Outcome.err e
             | Outcome.crash => Outcome.crash) := rfl
      have h2 : targetsOf p
            ({ name := mname, span := mspan, tys := mtys, next := some ns } :: ms)
          = target :: targetsOf p ms := by
        simp [targetsOf, htarget]
      rw [h1, h2, hget]
      rcases hf : f acc target with ⟨acc2, b⟩
      cases b with
      | false => simp [runFold, hf]
      | true => simp [runFold, hf, ih acc2 hms]

/-- The early-exit fold with a trace-recording callback computes exactly
the visit trace of the underlying predicate. -/
lemma runFold_trace (g : state_ → Bool) :
    ∀ (ts : List state_) (acc : List state_),
      runFold (fun a s => (a ++ [s], g s)) acc ts
        = (acc ++ (traceSpec g ts).1, (traceSpec g ts).2) := by
  intro ts
  induction ts with
  | nil => intro acc; simp [runFold, traceSpec]
  | cons t ts ih =>
    intro acc
    cases hg : g t with
    | false => simp [runFold, traceSpec, hg]
    | true => simp [runFold, traceSpec, hg, ih]

/-- Claim C3 (amended): when every transition target resolves, `reachable`
invokes the callback once per transition-carrying message — so a target
named by several messages is visited once per such message, not once — in
message-declaration order, skipping messages without a transition; it
stops right after the callback returns false (returning false) and returns
true when the iteration completes. The first conjunct reduces `reachable`
to the pure early-exit fold over the resolved target list; the second
computes that fold's visit trace for any pure predicate. -/
theorem C3_reachable_per_message {σ : Type} (st : state_) (p : protocol_)
    (f : σ → state_ → σ × Bool) (init : σ)
    (hres : ∀ m ∈ st.messages, m.next.all (fun ns => p.has_state ns.state) = true) :
    st.reachable p f init = Outcome.ok (runFold f init (st.targets p))
    ∧ (∀ (g : state_ → Bool) (ts : List state_),
        runFold (fun a s => (a ++ [s], g s)) [] ts = traceSpec g ts) := by
  refine ⟨reachableLoop_runFold p f st.messages init hres, fun g ts => ?_⟩
  simpa using runFold_trace g ts []

/-- Witness for C3 at a concrete input: on the mutually recursive pingpong
protocol, `reachable` from `Ping` equals the early-exit fold over its
resolved targets (which visits `Pong` exactly once). -/
theorem C3_reachable_per_message_witness :
    stPing.reachable pingpong (fun (a : List state_) s => (a ++ [s], true)) []
      = Outcome.ok (runFold (fun (a : List state_) s => (a ++ [s], true)) []
          (stPing.targets pingpong)) :=
  (C3_reachable_per_message stPing pingpong
    (fun (a : List state_) s => (a ++ [s], true)) [] (by decide)).1

/-- Counterexample for C3 as stated: state `A` has two messages both
transitioning to `B`; `reachable` invokes the callback on `B` twice, so it
does not visit only the distinct transition targets (`[stB, stB]` is not
the one-element distinct target list `[stB]`). -/
theorem C3_counterexample :
    stA.reachable pAB (fun (a : List state_) s => (a ++ [s], true)) []
      = Outcome.ok ([stB, stB], true)
    ∧ [stB, stB] ≠ [stB] := by
  exact ⟨rfl, by decide⟩

/-- One recorded `add_state_poly` call. -/
structure AddCall where
  name : String
  ident : Ident
  dir : direction
  generics : Generics

/-- Replay a sequence of `add_state_poly` calls against a protocol. -/
def runAdds (p : protocol_) : List AddCall → protocol_
  | [] => p
  | c :: cs => runAdds (p.add_state_poly c.name c.ident c.dir c.generics).1 cs

/-- One `add_state_poly` call preserves the invariant that the state at
position `i` has id `i`. -/
lemma add_state_poly_dense (p : protocol_) (c : AddCall)
    (hp : ∀ (i : Nat) (s : state_), p.states[i]? = some s → s.id = i) :
    ∀ (i : Nat) (s : state_),
      ((p.add_state_poly c.name c.ident c.dir c.generics).1).states[i]? = some s →
      s.id = i := by
  intro i s h
  simp only [protocol_.add_state_poly] at h
  rcases Nat.lt_or_ge i p.states.length with hi | hi
  · rw [List.getElem?_append_left hi] at h
    exact hp i s h
  · rw [List.getElem?_append_right hi] at h
    rcases hk : i - p.states.length with _ | n
    · rw [hk] at h
      simp only [List.getElem?_cons_zero, Option.some.injEq] at h
      subst h
      show p.states.length = i
      omega
    · rw [hk] at h
      simp at h

/-- Replaying any sequence of calls preserves the dense-ids invariant. -/
lemma runAdds_dense (cs : List AddCall) : ∀ (p : protocol_),
    (∀ (i : Nat) (s : state_), p.states[i]? = some s → s.id = i) →
    ∀ (i : Nat) (s : state_), (runAdds p cs).states[i]? = some s → s.id = i := by
  induction cs with
  | nil => intro p hp; exact hp
  | cons c cs ih =>
    intro p hp
    exact ih _ (add_state_poly_dense p c hp)

/-- Replaying calls only appends to the state list. -/
lemma runAdds_states_prefix (cs : List AddCall) : ∀ (p : protocol_),
    ∃ l : List state_, (runAdds p cs).states = p.states ++ l := by
  induction cs with
  | nil => intro p; exact ⟨[], by simp [runAdds]⟩
  | cons c cs ih =>
    intro p
    obtain ⟨l, hl⟩ := ih (p.add_state_poly c.name c.ident c.dir c.generics).1
    refine ⟨(p.add_state_poly c.name c.ident c.dir c.generics).2 :: l, ?_⟩
    have hstep : runAdds p (c :: cs)
        = runAdds (p.add_state_poly c.name c.ident c.dir c.generics).1 cs := rfl
    rw [hstep, hl]
    simp [protocol_.add_state_poly]

/-- Claim C5: over any sequence of `add_state_poly` calls starting from a
fresh protocol, the state stored at position `i` has id `i` (ids are
dense, 0-based, and equal insertion order); each call returns a state
whose id is the number of states registered before it; and later calls
never change already-registered states (hence never change their ids). -/
theorem C5_add_state_poly_ids (name : String) (sp : Span) (cs : List AddCall)
    (p : protocol_) (c : AddCall) (i : Nat) (s : state_)
    (hget : (runAdds (protocol name sp) cs).states[i]? = some s) :
    s.id = i
    ∧ ((p.add_state_poly c.name c.ident c.dir c.generics).2).id = p.num_states
    ∧ (runAdds p cs).states.take p.states.length = p.states := by
  refine ⟨runAdds_dense cs (protocol name sp) ?_ i s hget, rfl, ?_⟩
  · intro i2 s2 h
    simp [protocol] at h
  · obtain ⟨l, hl⟩ := runAdds_states_prefix cs p
    rw [hl, List.take_left]

/-- Calls building the two pingpong states. -/
def ppCalls : List AddCall :=
  [⟨"Ping", 0, direction.send, ⟨[], []⟩⟩, ⟨"Pong", 1, direction.recv, ⟨[], []⟩⟩]

/-- Witness for C5 at a concrete input: replaying the two pingpong calls on
a fresh protocol puts at position 1 a state whose id is 1. -/
theorem C5_add_state_poly_ids_witness :
    ({ id := 1, name := "Pong", ident := 1, span := 0, dir := direction.recv,
       generics := ⟨[], []⟩, messages := [] } : state_).id = 1 :=
  (C5_add_state_poly_ids "pp" 0 ppCalls (protocol "pp" 0)
    ⟨"X", 0, direction.send, ⟨[], []⟩⟩ 1
    { id := 1, name := "Pong", ident := 1, span := 0, dir := direction.recv,
      generics := ⟨[], []⟩, messages := [] } rfl).1

end Pipes
